import Mathlib

/-!
# RcppClock2: the report built by `Rcpp::Timer::stop`

Shallow embedding of `src/inst/include/rcpptimer.h`.

Numbers.  The C++ code computes on `double`.  Two embeddings of lines 47 to 51
are given.

* Exact arithmetic (`Entry.mean_ms`, `Entry.sd_ms`, `Timer.stop`): a finite
  `double` is an element of an ordered field `α`, every operation is exact, and
  the IEEE special values that a division by a zero count produces are kept as
  separate constructors of `Dbl`.  It is used for the statements made in exact
  arithmetic, for the shape of the report and for the special values.
* Binary64 (`Entry.mean_ms64`, `Entry.sd_ms64`, `Timer.stop64`): a finite
  `double` is a rational number, and every operation is followed by the IEEE
  rounding `fl` to the nearest value with a 53-bit significand, ties to even,
  with subnormals and overflow.  It is used for the values that the code
  reports digit for digit.

The base class `CppTimer` (`cpptimer/cpptimer.h`) is not among the sources;
the parts of it that the claims need are modelled from the specification and
are marked as such.
-/

namespace Rcpp

variable {α : Type}

/-! ## Numeric model -/

/-- A `double` value: a finite number, or one of the IEEE special values
`+inf`, `-inf`, `NaN`. -/
inductive Dbl (α : Type) where
  | fin (x : α)
  | pinf
  | ninf
  | nan
deriving DecidableEq, Repr

/-- The function `std::round` on a finite value: nearest integer, halfway cases
away from zero. -/
def std_round [LinearOrderedField α] [FloorRing α] (x : α) : ℤ :=
  if 0 ≤ x then ⌊x + 1 / 2⌋ else ⌈x - 1 / 2⌉

/-- The division `x / count` of line 47, a finite `double` by an unsigned
count converted to `double`: for `count = 0` IEEE division gives `NaN`
(`0 / 0`) or an infinity of the sign of `x`; it never traps. -/
def Dbl.div_count [LinearOrderedField α] (x : α) (count : ℕ) : Dbl α :=
  if count = 0 then
    if x = 0 then Dbl.nan else if 0 < x then Dbl.pinf else Dbl.ninf
  else Dbl.fin (x / (count : α))

/-- Multiplication of a `double` by one of the positive literals `1e-6`,
`1e+3`, `1e-3` of lines 50 and 51: special values are preserved. -/
def Dbl.mul_const [LinearOrderedField α] (d : Dbl α) (c : α) : Dbl α :=
  match d with
  | Dbl.fin x => Dbl.fin (x * c)
  | Dbl.pinf => Dbl.pinf
  | Dbl.ninf => Dbl.ninf
  | Dbl.nan => Dbl.nan

/-- The function `std::sqrt` on a `double`, given the square root `sqrt` of
non-negative finite values: negative arguments (and `-inf`) give `NaN`. -/
def Dbl.sqrt [LinearOrderedField α] (sqrt : α → α) (d : Dbl α) : Dbl α :=
  match d with
  | Dbl.fin x => if x < 0 then Dbl.nan else Dbl.fin (sqrt x)
  | Dbl.pinf => Dbl.pinf
  | Dbl.ninf => Dbl.nan
  | Dbl.nan => Dbl.nan

/-- The function `std::round` on a `double`: special values are returned
unchanged. -/
def Dbl.round [LinearOrderedField α] [FloorRing α] (d : Dbl α) : Dbl α :=
  match d with
  | Dbl.fin x => Dbl.fin ((std_round x : ℤ) : α)
  | Dbl.pinf => Dbl.pinf
  | Dbl.ninf => Dbl.ninf
  | Dbl.nan => Dbl.nan

/-! ## Data model -/

/-- The tuple `std::tuple<double, double, unsigned long int>` stored per tag:
`std::get<0>` is the running mean, `std::get<1>` the running sum of squared
deviations, `std::get<2>` the number of observations.  The count is kept as a
natural number (no wrap-around of `unsigned long`). -/
structure Entry (α : Type) where
  mean : α
  sum_sq_dev : α
  count : ℕ
deriving DecidableEq, Repr

/-- Modelled from the spec: the members of the base class `CppTimer`
(`cpptimer/cpptimer.h`, absent) that `Timer::stop` reads.  `data` is the
mapping tag → entry; the spec states that it keeps insertion order and has
unique keys, so it is an association list in iteration order.  `name` is the
name under which the report is published. -/
structure CppTimer (α : Type) where
  data : List (String × Entry α)
  name : String
  verbose : Bool

/-- The class `Rcpp::Timer`: a `CppTimer` with the public member
`autoreturn`. -/
structure Timer (α : Type) extends CppTimer α where
  autoreturn : Bool

/-- The `DataFrame` built at lines 55 to 59: four named columns. -/
structure DataFrame (α : Type) where
  Name : List String
  Milliseconds : List (Dbl α)
  SD : List (Dbl α)
  Count : List ℕ
deriving DecidableEq, Repr

/-- The global environment of the host: a binding of names to published
reports. -/
abbrev Environment (α : Type) := String → Option (DataFrame α)

/-- The assignment `env[name] = results` of line 64. -/
def Environment.assign (env : Environment α) (name : String) (results : DataFrame α) :
    Environment α :=
  fun k => if k = name then some results else env k

/-! ## `Timer::stop` -/

/-- The four output vectors declared at lines 35 to 37. -/
structure Out (α : Type) where
  out_tags : List String
  out_counts : List ℕ
  out_means : List (Dbl α)
  out_sd : List (Dbl α)

/-- The local `variance` of line 47: `std::get<1>(entry.second) / count`. -/
def Entry.variance [LinearOrderedField α] (e : Entry α) : Dbl α :=
  Dbl.div_count e.sum_sq_dev e.count

/-- The value pushed on `out_means` at line 50: `std::round(mean) * 1e-3`, in
exact arithmetic (the binary64 value is `Entry.mean_ms64`). -/
def Entry.mean_ms [LinearOrderedField α] [FloorRing α] (e : Entry α) : Dbl α :=
  (Dbl.round (Dbl.fin e.mean)).mul_const 1e-3

/-- The value pushed on `out_sd` at line 51:
`std::round(std::sqrt(variance * 1e-6) * 1e+3) * 1e-3`, in exact arithmetic (the
binary64 value is `Entry.sd_ms64`). -/
def Entry.sd_ms [LinearOrderedField α] [FloorRing α] (sqrt : α → α) (e : Entry α) : Dbl α :=
  (Dbl.round ((Dbl.sqrt sqrt (e.variance.mul_const 1e-6)).mul_const 1e3)).mul_const 1e-3

/-- One iteration of the loop of lines 39 to 53. -/
def Timer.stop_body [LinearOrderedField α] [FloorRing α] (sqrt : α → α)
    (o : Out α) (entry : String × Entry α) : Out α :=
  { out_tags := o.out_tags ++ [entry.1]
    out_means := o.out_means ++ [entry.2.mean_ms]
    out_sd := o.out_sd ++ [entry.2.sd_ms sqrt]
    out_counts := o.out_counts ++ [entry.2.count] }

/-- Modelled from the spec: `CppTimer::aggregate` (`cpptimer/cpptimer.h`,
absent).  The spec describes it as a pure read transform over the mapping that
performs no mutation of the underlying entries; the statistics are already
folded in by each `stop(tag)`. -/
def CppTimer.aggregate (t : CppTimer α) : CppTimer α := t

/-- What a call of `Timer::stop` leaves behind: the timer, the global
environment and the returned `DataFrame`. -/
structure StopResult (α : Type) where
  timer : Timer α
  env : Environment α
  results : DataFrame α

/-- The body of the method `Timer::stop` (lines 30 to 68), the effect on the
base object of the call `aggregate()` of line 32 being given as `agg`. -/
def Timer.stop_with [LinearOrderedField α] [FloorRing α] (agg : CppTimer α → CppTimer α)
    (sqrt : α → α) (t : Timer α) (env : Environment α) : StopResult α :=
  let t1 : Timer α := { t with toCppTimer := agg t.toCppTimer }
  let o := t1.data.foldl (Timer.stop_body sqrt) ⟨[], [], [], []⟩
  let results : DataFrame α :=
    { Name := o.out_tags, Milliseconds := o.out_means, SD := o.out_sd, Count := o.out_counts }
  let env1 := if t1.autoreturn then env.assign t1.name results else env
  { timer := t1, env := env1, results := results }

/-- The method `Timer::stop` (lines 30 to 68), line 32 calling the `aggregate`
modelled from the spec. -/
def Timer.stop [LinearOrderedField α] [FloorRing α] (sqrt : α → α)
    (t : Timer α) (env : Environment α) : StopResult α :=
  Timer.stop_with CppTimer.aggregate sqrt t env

/-- The destructor `~Timer` (lines 71 to 75): `some` of the result of the call
of `stop` when one is made, `none` when `stop` is not called. -/
def Timer.destructor [LinearOrderedField α] [FloorRing α] (sqrt : α → α)
    (t : Timer α) (env : Environment α) : Option (StopResult α) :=
  if t.autoreturn then some (t.stop sqrt env) else none

/-! ## The accumulator, modelled from the specification -/

/-- Modelled from the spec: the entry created for an unseen tag (declared in
`cpptimer/cpptimer.h`, absent), with zero statistics. -/
def Entry.zero [LinearOrderedField α] : Entry α := ⟨0, 0, 0⟩

/-- Modelled from the spec: the online update algorithm of section 4.1, applied
by `stop(tag)` (defined in `cpptimer/cpptimer.h`, absent) to the entry of the
tag with the new sample `x`. -/
def Entry.update [LinearOrderedField α] (e : Entry α) (x : α) : Entry α :=
  let n := e.count + 1
  let delta := x - e.mean
  let mean := e.mean + delta / (n : α)
  let delta2 := x - mean
  { mean := mean, sum_sq_dev := e.sum_sq_dev + delta * delta2, count := n }

/-- Lookup of a tag in the mapping. -/
def lookup (tag : String) : List (String × Entry α) → Option (Entry α)
  | [] => none
  | p :: ps => if p.1 = tag then some p.2 else lookup tag ps

/-- Modelled from the spec: lazy creation of the entry of an unseen tag
(`cpptimer/cpptimer.h`, absent); a new tag goes to the end of the mapping, an
existing one keeps its place. -/
def create [LinearOrderedField α] (data : List (String × Entry α)) (tag : String) :
    List (String × Entry α) :=
  if tag ∈ data.map (fun p => p.1) then data else data ++ [(tag, Entry.zero)]

/-- Replacement of the entry of a tag by its image under `f`. -/
def modify (data : List (String × Entry α)) (tag : String) (f : Entry α → Entry α) :
    List (String × Entry α) :=
  data.map (fun p => if p.1 = tag then (p.1, f p.2) else p)

/-- The timing events a timer receives: `start(tag)`, and a `stop(tag)` that
matches a pending start and measures the elapsed time `delta`. -/
inductive Event (α : Type) where
  | start (tag : String)
  | stop (tag : String) (delta : α)

/-- The tag of an event. -/
def Event.tag : Event α → String
  | Event.start tag => tag
  | Event.stop tag _ => tag

/-- Modelled from the spec: the effect of `start(tag)` and of a matched
`stop(tag)` on the mapping (`cpptimer/cpptimer.h`, absent): `start` creates the
entry of an unseen tag, `stop` applies the online update to the entry of the
tag. -/
def CppTimer.step [LinearOrderedField α] (t : CppTimer α) : Event α → CppTimer α
  | Event.start tag => { t with data := create t.data tag }
  | Event.stop tag delta =>
      { t with data := modify (create t.data tag) tag (fun e => e.update delta) }

/-- A sequence of timing events, in order. -/
def CppTimer.run [LinearOrderedField α] (t : CppTimer α) (evs : List (Event α)) : CppTimer α :=
  evs.foldl CppTimer.step t

/-- A sequence of timing events received by a `Timer`. -/
def Timer.run [LinearOrderedField α] (t : Timer α) (evs : List (Event α)) : Timer α :=
  { t with toCppTimer := t.toCppTimer.run evs }

/-- The constructor `Timer(const char *name, bool verbose)` of line 27, followed
by a setting of the public member `autoreturn` (`true` by default, line 22):
the mapping is empty. -/
def Timer.new (name : String) (verbose : Bool) (autoreturn : Bool) : Timer α :=
  { data := [], name := name, verbose := verbose, autoreturn := autoreturn }

/-! ## Binary64 evaluation of lines 47 to 51 -/

/-- Rounding of a rational number to the nearest integer, ties to the even
one. -/
def round_even (x : ℚ) : ℤ :=
  if x - ⌊x⌋ < 1 / 2 then ⌊x⌋
  else if 1 / 2 < x - ⌊x⌋ then ⌊x⌋ + 1
  else if ⌊x⌋ % 2 = 0 then ⌊x⌋ else ⌊x⌋ + 1

/-- The exponent of the last place of the binary64 format at `x`: 52 below
the leading bit of `x`, and not below that of the subnormals. -/
def ulp_exp (x : ℚ) : ℤ := max (Int.log 2 |x| - 52) (-1074)

/-- The binary64 value nearest to `x`, ties to even, the exponent not bounded
above. -/
def fl (x : ℚ) : ℚ := (round_even (x / 2 ^ ulp_exp x) : ℚ) * 2 ^ ulp_exp x

/-- The result of a binary64 operation whose exact value is `x`: `x` rounded,
or an infinity when the rounded value leaves the range of the format. -/
def Dbl.rnd (x : ℚ) : Dbl ℚ :=
  if (2 : ℚ) ^ 1024 ≤ |fl x| then (if 0 < x then Dbl.pinf else Dbl.ninf) else Dbl.fin (fl x)

/-- The correctly rounded square root of a positive number: the significand is
the integer nearest to `sqrt (x / 4 ^ e)` for the exponent `e` that makes it a
53-bit number, computed with the integer square root. -/
def fsqrt (x : ℚ) : ℚ :=
  if x ≤ 0 then 0
  else (((Nat.sqrt ⌊4 * x / 4 ^ (Int.log 4 x - 52)⌋₊ + 1) / 2 : ℕ) : ℚ) *
    2 ^ (Int.log 4 x - 52)

/-- The division `x / count` of line 47 in binary64: the count is converted to
`double`, the quotient is rounded; a zero count gives `NaN` or an infinity. -/
def Dbl.div_count64 (x : ℚ) (count : ℕ) : Dbl ℚ :=
  if count = 0 then
    if x = 0 then Dbl.nan else if 0 < x then Dbl.pinf else Dbl.ninf
  else Dbl.rnd (x / fl (count : ℚ))

/-- Multiplication of a `double` by a positive finite `double` constant in
binary64: the product is rounded, special values are preserved. -/
def Dbl.mul64 (d : Dbl ℚ) (c : ℚ) : Dbl ℚ :=
  match d with
  | Dbl.fin x => Dbl.rnd (x * c)
  | Dbl.pinf => Dbl.pinf
  | Dbl.ninf => Dbl.ninf
  | Dbl.nan => Dbl.nan

/-- The function `std::sqrt` in binary64: correctly rounded on non-negative
finite values, `NaN` on negative ones. -/
def Dbl.sqrt64 (d : Dbl ℚ) : Dbl ℚ :=
  match d with
  | Dbl.fin x => if x < 0 then Dbl.nan else Dbl.fin (fsqrt x)
  | Dbl.pinf => Dbl.pinf
  | Dbl.ninf => Dbl.nan
  | Dbl.nan => Dbl.nan

/-- The local `variance` of line 47 in binary64. -/
def Entry.variance64 (e : Entry ℚ) : Dbl ℚ :=
  Dbl.div_count64 e.sum_sq_dev e.count

/-- The value pushed on `out_means` at line 50 in binary64:
`std::round(mean) * 1e-3`, the literal `1e-3` being the `double` nearest to
`1/1000`.  The result of `std::round` is an integer that needs no rounding. -/
def Entry.mean_ms64 (e : Entry ℚ) : Dbl ℚ :=
  Dbl.mul64 (Dbl.round (Dbl.fin e.mean)) (fl 1e-3)

/-- The local value `std::sqrt(variance * 1e-6) * 1e+3` of line 51 in binary64,
before `std::round`. -/
def Entry.sd_us64 (e : Entry ℚ) : Dbl ℚ :=
  Dbl.mul64 (Dbl.sqrt64 (Dbl.mul64 e.variance64 (fl 1e-6))) 1e3

/-- The value pushed on `out_sd` at line 51 in binary64:
`std::round(std::sqrt(variance * 1e-6) * 1e+3) * 1e-3`. -/
def Entry.sd_ms64 (e : Entry ℚ) : Dbl ℚ :=
  Dbl.mul64 (Dbl.round e.sd_us64) (fl 1e-3)

/-- One iteration of the loop of lines 39 to 53 in binary64. -/
def Timer.stop_body64 (o : Out ℚ) (entry : String × Entry ℚ) : Out ℚ :=
  { out_tags := o.out_tags ++ [entry.1]
    out_means := o.out_means ++ [entry.2.mean_ms64]
    out_sd := o.out_sd ++ [entry.2.sd_ms64]
    out_counts := o.out_counts ++ [entry.2.count] }

/-- The method `Timer::stop` (lines 30 to 68) in binary64, line 32 calling the
`aggregate` modelled from the spec. -/
def Timer.stop64 (t : Timer ℚ) (env : Environment ℚ) : StopResult ℚ :=
  let t1 : Timer ℚ := { t with toCppTimer := t.toCppTimer.aggregate }
  let o := t1.data.foldl Timer.stop_body64 ⟨[], [], [], []⟩
  let results : DataFrame ℚ :=
    { Name := o.out_tags, Milliseconds := o.out_means, SD := o.out_sd, Count := o.out_counts }
  let env1 := if t1.autoreturn then env.assign t1.name results else env
  { timer := t1, env := env1, results := results }

/-! ## Specification-side definitions -/

/-- The elapsed times recorded for one tag, in order. -/
def deltas (tag : String) : List (Event α) → List α
  | [] => []
  | Event.start _ :: evs => deltas tag evs
  | Event.stop s x :: evs => if s = tag then x :: deltas tag evs else deltas tag evs

/-- The population variance of a list of samples: the mean of the squared
deviations from the mean. -/
def popVariance [LinearOrderedField α] (ds : List α) : α :=
  (ds.map (fun d => (d - ds.sum / (ds.length : α)) ^ 2)).sum / (ds.length : α)

/-- The sum of the squares of a list of samples. -/
def sumSq [LinearOrderedField α] (ds : List α) : α := (ds.map (fun d => d ^ 2)).sum

/-- The distinct tags of a list in the order of their first occurrence. -/
def firstSeen : List String → List String
  | [] => []
  | t :: ts => t :: (firstSeen ts).filter (fun s => s ≠ t)


/-- Rounding to three decimal places, nearest with ties away from zero. -/
def round3 [LinearOrderedField α] [FloorRing α] (x : α) : α :=
  ((std_round (x * 1000) : ℤ) : α) / 1000

/-! ## Lemmas on the numeric model -/

theorem std_round_sub_le [LinearOrderedField α] [FloorRing α] (x : α) :
    |((std_round x : ℤ) : α) - x| ≤ 1 / 2 := by
  unfold std_round
  split_ifs with h
  · have h1 := Int.floor_le (x + 1 / 2)
    have h2 := Int.lt_floor_add_one (x + 1 / 2)
    rw [abs_le]
    constructor <;> linarith
  · have h1 := Int.le_ceil (x - 1 / 2)
    have h2 := Int.ceil_lt_add_one (x - 1 / 2)
    rw [abs_le]
    constructor <;> linarith

theorem std_round_intCast [LinearOrderedField α] [FloorRing α] (z : ℤ) :
    std_round (z : α) = z := by
  unfold std_round
  split_ifs with h
  · have : ((z : α) + 1 / 2) = ((z : α) + 2⁻¹) := by norm_num
    rw [Int.floor_eq_iff]
    constructor
    · linarith [show (0 : α) < 1 / 2 by norm_num]
    · linarith [show (1 / 2 : α) < 1 by norm_num]
  · rw [Int.ceil_eq_iff]
    constructor
    · linarith [show (1 / 2 : α) < 1 by norm_num]
    · linarith [show (0 : α) < 1 / 2 by norm_num]

theorem stop_foldl [LinearOrderedField α] [FloorRing α] (sqrt : α → α)
    (l : List (String × Entry α)) (o : Out α) :
    l.foldl (Timer.stop_body sqrt) o =
      { out_tags := o.out_tags ++ l.map (fun p => p.1)
        out_means := o.out_means ++ l.map (fun p => p.2.mean_ms)
        out_sd := o.out_sd ++ l.map (fun p => p.2.sd_ms sqrt)
        out_counts := o.out_counts ++ l.map (fun p => p.2.count) } := by
  induction l generalizing o with
  | nil => simp
  | cons p l ih => simp [List.foldl_cons, ih, Timer.stop_body]

theorem stop_with_results [LinearOrderedField α] [FloorRing α]
    (agg : CppTimer α → CppTimer α) (sqrt : α → α) (t : Timer α) (env : Environment α) :
    (t.stop_with agg sqrt env).results =
      { Name := (agg t.toCppTimer).data.map (fun p => p.1)
        Milliseconds := (agg t.toCppTimer).data.map (fun p => p.2.mean_ms)
        SD := (agg t.toCppTimer).data.map (fun p => p.2.sd_ms sqrt)
        Count := (agg t.toCppTimer).data.map (fun p => p.2.count) } := by
  simp [Timer.stop_with, stop_foldl]

theorem stop_results [LinearOrderedField α] [FloorRing α] (sqrt : α → α)
    (t : Timer α) (env : Environment α) :
    (t.stop sqrt env).results =
      { Name := t.data.map (fun p => p.1)
        Milliseconds := t.data.map (fun p => p.2.mean_ms)
        SD := t.data.map (fun p => p.2.sd_ms sqrt)
        Count := t.data.map (fun p => p.2.count) } := by
  simp [Timer.stop, stop_with_results, CppTimer.aggregate]

theorem mean_ms_eq [LinearOrderedField α] [FloorRing α] (e : Entry α) :
    e.mean_ms = Dbl.fin (round3 (e.mean * 1e-3)) := by
  have h : e.mean * 1e-3 * 1000 = e.mean := by norm_num [mul_assoc]
  simp only [Entry.mean_ms, Dbl.round, Dbl.mul_const, round3, h]
  congr 1
  norm_num [div_eq_mul_inv]

/-! ## Lemmas on the online update -/

theorem sumSq_append [LinearOrderedField α] (ds : List α) (x : α) :
    sumSq (ds ++ [x]) = sumSq ds + x ^ 2 := by
  simp [sumSq]

theorem update_foldl_invariant [LinearOrderedField α] (ds : List α) :
    (ds.foldl Entry.update Entry.zero).count = ds.length ∧
    (ds.foldl Entry.update Entry.zero).mean = ds.sum / (ds.length : α) ∧
    (ds.foldl Entry.update Entry.zero).sum_sq_dev =
      sumSq ds - ds.sum ^ 2 / (ds.length : α) := by
  induction ds using List.reverseRecOn with
  | nil => simp [Entry.zero, sumSq]
  | append_singleton ds x ih =>
    obtain ⟨hc, hm, hs⟩ := ih
    rw [List.foldl_append, List.foldl_cons, List.foldl_nil]
    simp only [Entry.update, hc, hm, hs, List.length_append, List.length_singleton,
      List.sum_append, List.sum_singleton, sumSq_append]
    refine ⟨trivial, ?_, ?_⟩
    · rcases Nat.eq_zero_or_pos ds.length with h0 | hpos
      · have : ds = [] := List.length_eq_zero.mp h0
        subst this
        simp
      · have h1 : (ds.length : α) ≠ 0 := by exact_mod_cast hpos.ne'
        have h2 : (ds.length : α) + 1 ≠ 0 := by positivity
        push_cast
        field_simp
        ring
    · rcases Nat.eq_zero_or_pos ds.length with h0 | hpos
      · have : ds = [] := List.length_eq_zero.mp h0
        subst this
        simp [sumSq]
      · have h1 : (ds.length : α) ≠ 0 := by exact_mod_cast hpos.ne'
        have h2 : (ds.length : α) + 1 ≠ 0 := by positivity
        push_cast
        field_simp
        ring

theorem sum_sq_dev_expand [LinearOrderedField α] (ds : List α) (m : α) :
    (ds.map (fun d => (d - m) ^ 2)).sum =
      sumSq ds - 2 * m * ds.sum + (ds.length : α) * m ^ 2 := by
  induction ds with
  | nil => simp [sumSq]
  | cons d ds ih =>
    simp only [List.map_cons, List.sum_cons, ih, sumSq, List.length_cons]
    push_cast
    ring

theorem popVariance_eq [LinearOrderedField α] (ds : List α) (h : ds ≠ []) :
    popVariance ds = (sumSq ds - ds.sum ^ 2 / (ds.length : α)) / (ds.length : α) := by
  have h1 : (ds.length : α) ≠ 0 := by
    have : ds.length ≠ 0 := fun h0 => h (List.length_eq_zero.mp h0)
    exact_mod_cast this
  unfold popVariance
  rw [sum_sq_dev_expand]
  field_simp
  ring

/-! ## Lemmas on the mapping -/

theorem lookup_append (tag : String) (l1 l2 : List (String × Entry α)) :
    lookup tag (l1 ++ l2) = (lookup tag l1).orElse (fun _ => lookup tag l2) := by
  induction l1 with
  | nil => simp [lookup]
  | cons p ps ih =>
    by_cases h : p.1 = tag
    · simp [lookup, h]
    · simp [lookup, h, ih]

theorem lookup_eq_none_iff (tag : String) (l : List (String × Entry α)) :
    lookup tag l = none ↔ tag ∉ l.map (fun p => p.1) := by
  induction l with
  | nil => simp [lookup]
  | cons p ps ih =>
    by_cases h : p.1 = tag
    · simp [lookup, h]
    · have h2 : ¬ tag = p.1 := fun e => h e.symm
      simp [lookup, h, h2, ih]

theorem lookup_create [LinearOrderedField α] (tag s : String) (l : List (String × Entry α)) :
    lookup tag (create l s) =
      match lookup tag l with
      | some e => some e
      | none => if s = tag then some Entry.zero else none := by
  unfold create
  split_ifs with h1 h2 h2
  · subst h2
    have : lookup s l ≠ none := fun hn => (lookup_eq_none_iff s l).mp hn h1
    cases hl : lookup s l with
    | none => exact absurd hl this
    | some e => rfl
  · cases hl : lookup tag l <;> rfl
  · subst h2
    have hn : lookup s l = none := (lookup_eq_none_iff s l).mpr h1
    simp [lookup_append, hn, lookup]
  · cases hl : lookup tag l <;> simp [lookup_append, hl, lookup, h2]

theorem lookup_modify (tag s : String) (f : Entry α → Entry α) (l : List (String × Entry α)) :
    lookup tag (modify l s f) = (lookup tag l).map (fun e => if s = tag then f e else e) := by
  induction l with
  | nil => simp [lookup, modify]
  | cons p ps ih =>
    unfold modify at ih ⊢
    by_cases h1 : p.1 = s
    · by_cases h2 : p.1 = tag
      · have h3 : s = tag := h1 ▸ h2
        simp [lookup, h1, h3]
      · have h3 : ¬ s = tag := fun e => h2 (h1.trans e)
        simp [lookup, h1, h3, ih]
    · by_cases h2 : p.1 = tag
      · have h3 : ¬ tag = s := fun e => h1 (h2.trans e)
        have h4 : ¬ s = tag := fun e => h3 e.symm
        simp [lookup, h2, h3, h4]
      · simp [lookup, h1, h2, ih]

theorem keys_modify (s : String) (f : Entry α → Entry α) (l : List (String × Entry α)) :
    (modify l s f).map (fun p => p.1) = l.map (fun p => p.1) := by
  unfold modify
  rw [List.map_map]
  apply List.map_congr_left
  intro p _
  by_cases h : p.1 = s <;> simp [h]

theorem keys_create [LinearOrderedField α] (s : String) (l : List (String × Entry α)) :
    (create l s).map (fun p => p.1) =
      if s ∈ l.map (fun p => p.1) then l.map (fun p => p.1) else l.map (fun p => p.1) ++ [s] := by
  unfold create
  split_ifs <;> simp

theorem keys_step [LinearOrderedField α] (t : CppTimer α) (ev : Event α) :
    (t.step ev).data.map (fun p => p.1) =
      if ev.tag ∈ t.data.map (fun p => p.1) then t.data.map (fun p => p.1)
      else t.data.map (fun p => p.1) ++ [ev.tag] := by
  cases ev with
  | start tag => simp only [CppTimer.step, Event.tag, keys_create]
  | stop tag delta => simp only [CppTimer.step, Event.tag, keys_modify, keys_create]

theorem keys_run [LinearOrderedField α] (evs : List (Event α)) (t : CppTimer α) :
    (t.run evs).data.map (fun p => p.1) =
      t.data.map (fun p => p.1) ++
        (firstSeen (evs.map Event.tag)).filter (fun s => s ∉ t.data.map (fun p => p.1)) := by
  induction evs generalizing t with
  | nil => simp [CppTimer.run, firstSeen]
  | cons ev evs ih =>
    have hrun : t.run (ev :: evs) = (t.step ev).run evs := rfl
    rw [hrun, ih, keys_step]
    simp only [List.map_cons, firstSeen]
    split_ifs with h
    · rw [List.filter_cons_of_neg (by simpa using h), List.filter_filter]
      congr 1
      apply List.filter_congr
      intro x _
      by_cases hx : x = ev.tag
      · subst hx
        simp [h]
      · simp [hx]
    · rw [List.filter_cons_of_pos (by simpa using h), List.filter_filter, List.append_assoc]
      congr 1
      simp only [List.singleton_append]
      congr 1
      apply List.filter_congr
      intro x _
      by_cases hx : x = ev.tag
      · subst hx
        simp
      · simp [hx]

theorem lookup_step [LinearOrderedField α] (tag : String) (t : CppTimer α) (ev : Event α) :
    lookup tag (t.step ev).data =
      match ev with
      | Event.start s =>
          (match lookup tag t.data with
            | some e => some e
            | none => if s = tag then some Entry.zero else none)
      | Event.stop s x =>
          (match lookup tag t.data with
            | some e => some (if s = tag then e.update x else e)
            | none => if s = tag then some (Entry.zero.update x) else none) := by
  cases ev with
  | start s => simp only [CppTimer.step, lookup_create]
  | stop s x =>
    simp only [CppTimer.step, lookup_modify, lookup_create]
    cases hl : lookup tag t.data with
    | some e => simp
    | none => by_cases h : s = tag <;> simp [h]

theorem lookup_run_some [LinearOrderedField α] (tag : String) (evs : List (Event α))
    (t : CppTimer α) (e : Entry α) (h : lookup tag t.data = some e) :
    lookup tag (t.run evs).data = some ((deltas tag evs).foldl Entry.update e) := by
  induction evs generalizing t e with
  | nil => simpa [CppTimer.run, deltas] using h
  | cons ev evs ih =>
    have hrun : t.run (ev :: evs) = (t.step ev).run evs := rfl
    rw [hrun]
    cases ev with
    | start s =>
      have hs : lookup tag (t.step (Event.start s)).data = some e := by
        rw [lookup_step]; simp [h]
      rw [ih _ _ hs]
      simp [deltas]
    | stop s x =>
      have hs : lookup tag (t.step (Event.stop s x)).data =
          some (if s = tag then e.update x else e) := by
        rw [lookup_step]; simp [h]
      rw [ih _ _ hs]
      by_cases hst : s = tag <;> simp [deltas, hst]

theorem lookup_run_none [LinearOrderedField α] (tag : String) (evs : List (Event α))
    (t : CppTimer α) (h : lookup tag t.data = none) (hne : deltas tag evs ≠ []) :
    lookup tag (t.run evs).data = some ((deltas tag evs).foldl Entry.update Entry.zero) := by
  induction evs generalizing t with
  | nil => simp [deltas] at hne
  | cons ev evs ih =>
    have hrun : t.run (ev :: evs) = (t.step ev).run evs := rfl
    rw [hrun]
    cases ev with
    | start s =>
      have hne2 : deltas tag evs ≠ [] := by simpa [deltas] using hne
      by_cases hst : s = tag
      · have hs : lookup tag (t.step (Event.start s)).data = some Entry.zero := by
          rw [lookup_step]; simp [h, hst]
        rw [lookup_run_some _ _ _ _ hs]
        simp [deltas]
      · have hs : lookup tag (t.step (Event.start s)).data = none := by
          rw [lookup_step]; simp [h, hst]
        rw [ih _ hs hne2]
        simp [deltas]
    | stop s x =>
      by_cases hst : s = tag
      · have hs : lookup tag (t.step (Event.stop s x)).data = some (Entry.zero.update x) := by
          rw [lookup_step]; simp [h, hst]
        rw [lookup_run_some _ _ _ _ hs]
        simp [deltas, hst]
      · have hne2 : deltas tag evs ≠ [] := by simpa [deltas, hst] using hne
        have hs : lookup tag (t.step (Event.stop s x)).data = none := by
          rw [lookup_step]; simp [h, hst]
        rw [ih _ hs hne2]
        simp [deltas, hst]

/-! ## Lemmas on binary64 rounding -/

theorem round_even_intCast (z : ℤ) : round_even (z : ℚ) = z := by
  simp [round_even]

theorem round_even_sub_le (y : ℚ) : |((round_even y : ℤ) : ℚ) - y| ≤ 1 / 2 := by
  have h1 := Int.floor_le y
  have h2 := Int.lt_floor_add_one y
  unfold round_even
  rw [abs_le]
  split_ifs with a b c
  · constructor <;> linarith
  · push_cast
    constructor <;> linarith
  · constructor <;> linarith
  · push_cast
    constructor <;> linarith

theorem round_even_eq_of_lt (y : ℚ) (m : ℤ) (h1 : (m : ℚ) - 1 / 2 < y)
    (h2 : y < (m : ℚ) + 1 / 2) : round_even y = m := by
  rcases le_or_lt (m : ℚ) y with h | h
  · have hf : ⌊y⌋ = m := by
      rw [Int.floor_eq_iff]
      constructor <;> linarith
    unfold round_even
    rw [hf, if_pos (by linarith)]
  · have hf : ⌊y⌋ = m - 1 := by
      rw [Int.floor_eq_iff]
      push_cast
      constructor <;> linarith
    unfold round_even
    rw [hf]
    push_cast
    rw [if_neg (by linarith), if_pos (by linarith)]
    ring

theorem log_eq_of (b : ℕ) (hb : 1 < b) (x : ℚ) (k : ℤ) (hx : 0 < x)
    (h1 : (b : ℚ) ^ k ≤ x) (h2 : x < (b : ℚ) ^ (k + 1)) : Int.log b x = k := by
  have h3 : k ≤ Int.log b x := (Int.zpow_le_iff_le_log hb hx).mp h1
  have h4 : Int.log b x < k + 1 := (Int.lt_zpow_iff_log_lt hb hx).mp h2
  omega

theorem ulp_exp_eq_of (x : ℚ) (e : ℤ) (hx : 0 < x) (he : -1074 ≤ e)
    (h1 : (2 : ℚ) ^ (e + 52) ≤ x) (h2 : x < (2 : ℚ) ^ (e + 53)) : ulp_exp x = e := by
  have h53 : e + 52 + 1 = e + 53 := by ring
  have h : Int.log 2 x = e + 52 :=
    log_eq_of 2 (by norm_num) x (e + 52) hx (by exact_mod_cast h1)
      (by rw [h53]; exact_mod_cast h2)
  unfold ulp_exp
  rw [abs_of_pos hx, h]
  simp [he]

theorem fl_eq_of_bounds (x : ℚ) (m e : ℤ) (hx : 0 < x) (he : -1074 ≤ e)
    (h1 : (2 : ℚ) ^ (e + 52) ≤ x) (h2 : x < (2 : ℚ) ^ (e + 53))
    (hlo : ((m : ℚ) - 1 / 2) * 2 ^ e < x) (hhi : x < ((m : ℚ) + 1 / 2) * 2 ^ e) :
    fl x = (m : ℚ) * 2 ^ e := by
  have hp : (0 : ℚ) < 2 ^ e := zpow_pos (by norm_num) e
  unfold fl
  rw [ulp_exp_eq_of x e hx he h1 h2, round_even_eq_of_lt (x / 2 ^ e) m]
  · rw [lt_div_iff₀ hp]; exact hlo
  · rw [div_lt_iff₀ hp]; exact hhi

theorem round_even_tie_odd (f : ℤ) (hodd : f % 2 = 1) :
    round_even ((f : ℚ) + 1 / 2) = f + 1 := by
  have hf : ⌊(f : ℚ) + 1 / 2⌋ = f := by
    rw [Int.floor_eq_iff]
    constructor <;> linarith
  have h2 : ¬ f % 2 = 0 := by omega
  unfold round_even
  rw [hf, if_neg (by simp), if_neg (by simp), if_neg h2]

theorem rnd_eq_of_tie_odd (x q : ℚ) (f e : ℤ) (hq : q = ((f : ℚ) + 1) * 2 ^ e) (hx : 0 < x)
    (he : -1074 ≤ e) (h1 : (2 : ℚ) ^ (e + 52) ≤ x) (h2 : x < (2 : ℚ) ^ (e + 53))
    (hval : x = ((f : ℚ) + 1 / 2) * 2 ^ e) (hodd : f % 2 = 1)
    (hq0 : 0 ≤ q) (hfin : q < 2 ^ 64) : Dbl.rnd x = Dbl.fin q := by
  have hbig : q < 2 ^ 1024 := hfin.trans (pow_lt_pow_right₀ (by norm_num) (by norm_num))
  have hp : (2 : ℚ) ^ e ≠ 0 := (zpow_pos (by norm_num) e).ne'
  have hfl : fl x = q := by
    unfold fl
    rw [ulp_exp_eq_of x e hx he h1 h2]
    have hy : x / 2 ^ e = (f : ℚ) + 1 / 2 := by
      rw [hval, mul_div_assoc, div_self hp, mul_one]
    rw [hy, round_even_tie_odd f hodd, hq]
    push_cast
    ring
  unfold Dbl.rnd
  rw [hfl, abs_of_nonneg hq0, if_neg (not_le.mpr hbig)]

theorem fl_zero : fl 0 = 0 := by simp [fl, round_even]

theorem rnd_zero : Dbl.rnd 0 = Dbl.fin 0 := by
  simp [Dbl.rnd, fl_zero]

theorem rnd_eq_of_bounds (x q : ℚ) (m e : ℤ) (hq : q = (m : ℚ) * 2 ^ e) (hx : 0 < x)
    (he : -1074 ≤ e) (h1 : (2 : ℚ) ^ (e + 52) ≤ x) (h2 : x < (2 : ℚ) ^ (e + 53))
    (hlo : ((m : ℚ) - 1 / 2) * 2 ^ e < x) (hhi : x < ((m : ℚ) + 1 / 2) * 2 ^ e)
    (hq0 : 0 ≤ q) (hfin : q < 2 ^ 64) : Dbl.rnd x = Dbl.fin q := by
  have hbig : q < 2 ^ 1024 := hfin.trans (pow_lt_pow_right₀ (by norm_num) (by norm_num))
  unfold Dbl.rnd
  rw [fl_eq_of_bounds x m e hx he h1 h2 hlo hhi, ← hq, abs_of_nonneg hq0,
    if_neg (not_le.mpr hbig)]

theorem fl_error (x : ℚ) (hx : (2 : ℚ) ^ (-1022 : ℤ) ≤ x) : |fl x - x| ≤ x * 2 ^ (-53 : ℤ) := by
  have hx0 : 0 < x := lt_of_lt_of_le (zpow_pos (by norm_num) _) hx
  have hk : (-1022 : ℤ) ≤ Int.log 2 x :=
    (Int.zpow_le_iff_le_log (by norm_num) hx0).mp (by exact_mod_cast hx)
  have hk2 : ((2 : ℕ) : ℚ) ^ Int.log 2 x ≤ x := Int.zpow_log_le_self (by norm_num) hx0
  have he : ulp_exp x = Int.log 2 x - 52 := by
    unfold ulp_exp
    rw [abs_of_pos hx0]
    exact max_eq_left (by omega)
  have hp : (0 : ℚ) < 2 ^ (Int.log 2 x - 52) := zpow_pos (by norm_num) _
  have hr := round_even_sub_le (x / 2 ^ (Int.log 2 x - 52))
  have hsplit : (2 : ℚ) ^ Int.log 2 x = 2 ^ (Int.log 2 x - 52) * 2 ^ (52 : ℤ) := by
    rw [← zpow_add₀ (by norm_num : (2 : ℚ) ≠ 0)]
    congr 1
    ring
  have hfl : fl x - x =
      (((round_even (x / 2 ^ (Int.log 2 x - 52)) : ℤ) : ℚ) - x / 2 ^ (Int.log 2 x - 52)) *
        2 ^ (Int.log 2 x - 52) := by
    unfold fl
    rw [he]
    field_simp
  rw [hfl, abs_mul, abs_of_pos hp]
  have h53 : (2 : ℚ) ^ (-53 : ℤ) = 1 / 2 / 2 ^ (52 : ℤ) := by norm_num
  have hx2 : (2 : ℚ) ^ (Int.log 2 x - 52) * 2 ^ (52 : ℤ) ≤ x := by
    rw [← hsplit]; exact_mod_cast hk2
  calc |((round_even (x / 2 ^ (Int.log 2 x - 52)) : ℤ) : ℚ) - x / 2 ^ (Int.log 2 x - 52)| *
        2 ^ (Int.log 2 x - 52)
      ≤ 1 / 2 * 2 ^ (Int.log 2 x - 52) := mul_le_mul_of_nonneg_right hr hp.le
    _ = (2 ^ (Int.log 2 x - 52) * 2 ^ (52 : ℤ)) * 2 ^ (-53 : ℤ) := by
        rw [h53]; field_simp; ring
    _ ≤ x * 2 ^ (-53 : ℤ) := mul_le_mul_of_nonneg_right hx2 (by positivity)

theorem fl_natCast (d : ℕ) (hd : d < 2 ^ 53) : fl (d : ℚ) = d := by
  rcases Nat.eq_zero_or_pos d with h0 | hpos
  · subst h0
    simpa using fl_zero
  · have hx : (0 : ℚ) < d := by exact_mod_cast hpos
    have h1 : ((2 : ℕ) : ℚ) ^ Int.log 2 (d : ℚ) ≤ d := Int.zpow_log_le_self (by norm_num) hx
    have h2 : (d : ℚ) < ((2 : ℕ) : ℚ) ^ (Int.log 2 (d : ℚ) + 1) :=
      Int.lt_zpow_succ_log_self (by norm_num) _
    have hk0 : (0 : ℤ) ≤ Int.log 2 (d : ℚ) :=
      (Int.zpow_le_iff_le_log (by norm_num) hx).mp (by
        have : (1 : ℚ) ≤ d := by exact_mod_cast hpos
        simpa using this)
    have hk52 : Int.log 2 (d : ℚ) < 53 :=
      (Int.lt_zpow_iff_log_lt (by norm_num) hx).mp (by
        have : (d : ℚ) < 2 ^ (53 : ℕ) := by exact_mod_cast hd
        rw [← zpow_natCast] at this
        exact_mod_cast this)
    obtain ⟨n, hn⟩ : ∃ n : ℕ, (n : ℤ) = 52 - Int.log 2 (d : ℚ) :=
      ⟨(52 - Int.log 2 (d : ℚ)).toNat, Int.toNat_of_nonneg (by omega)⟩
    have he : Int.log 2 (d : ℚ) - 52 = -(n : ℤ) := by omega
    have hpow : (2 : ℚ) ^ (-(n : ℤ)) * 2 ^ n = 1 := by
      rw [zpow_neg, zpow_natCast]
      field_simp
    have hval : (d : ℚ) = ((d * 2 ^ n : ℕ) : ℤ) * (2 : ℚ) ^ (-(n : ℤ)) := by
      push_cast
      rw [mul_assoc, mul_comm ((2 : ℚ) ^ n), hpow, mul_one]
    have hpe : (0 : ℚ) < 2 ^ (-(n : ℤ)) := zpow_pos (by norm_num) _
    have h := fl_eq_of_bounds (d : ℚ) ((d * 2 ^ n : ℕ) : ℤ) (-(n : ℤ)) hx (by omega)
      (by
        have : -(n : ℤ) + 52 = Int.log 2 (d : ℚ) := by omega
        rw [this]; exact_mod_cast h1)
      (by
        have : -(n : ℤ) + 53 = Int.log 2 (d : ℚ) + 1 := by omega
        rw [this]; exact_mod_cast h2)
      (by
        rw [sub_mul, ← hval]
        linarith [mul_pos (show (0 : ℚ) < 1 / 2 by norm_num) hpe])
      (by
        rw [add_mul, ← hval]
        linarith [mul_pos (show (0 : ℚ) < 1 / 2 by norm_num) hpe])
    rw [h, ← hval]

theorem stop64_foldl (l : List (String × Entry ℚ)) (o : Out ℚ) :
    l.foldl Timer.stop_body64 o =
      { out_tags := o.out_tags ++ l.map (fun p => p.1)
        out_means := o.out_means ++ l.map (fun p => p.2.mean_ms64)
        out_sd := o.out_sd ++ l.map (fun p => p.2.sd_ms64)
        out_counts := o.out_counts ++ l.map (fun p => p.2.count) } := by
  induction l generalizing o with
  | nil => simp
  | cons p l ih => simp [List.foldl_cons, ih, Timer.stop_body64]

theorem stop64_results (t : Timer ℚ) (env : Environment ℚ) :
    (t.stop64 env).results =
      { Name := t.data.map (fun p => p.1)
        Milliseconds := t.data.map (fun p => p.2.mean_ms64)
        SD := t.data.map (fun p => p.2.sd_ms64)
        Count := t.data.map (fun p => p.2.count) } := by
  simp [Timer.stop64, stop64_foldl, CppTimer.aggregate]

theorem fl_lit_1e_3 : fl 1e-3 = 4611686018427388 / 2 ^ 62 := by
  rw [fl_eq_of_bounds 1e-3 4611686018427388 (-62) (by norm_num) (by norm_num)
    (by norm_num) (by norm_num) (by norm_num) (by norm_num)]
  norm_num

theorem div_count64_of_ne (x : ℚ) (n : ℕ) (h : n ≠ 0) :
    Dbl.div_count64 x n = Dbl.rnd (x / fl (n : ℚ)) := by
  unfold Dbl.div_count64
  rw [if_neg h]

theorem mul64_fin (x c : ℚ) : Dbl.mul64 (Dbl.fin x) c = Dbl.rnd (x * c) := rfl

theorem sqrt64_fin (x : ℚ) (h : 0 ≤ x) : Dbl.sqrt64 (Dbl.fin x) = Dbl.fin (fsqrt x) := by
  simp only [Dbl.sqrt64, if_neg (not_lt.mpr h)]

theorem round_fin (x : ℚ) : Dbl.round (Dbl.fin x) = Dbl.fin ((std_round x : ℤ) : ℚ) := rfl

theorem lit_1e_3_bounds :
    (2 : ℚ) ^ (-1022 : ℤ) ≤ fl 1e-3 ∧ fl 1e-3 ≤ 1 ∧ 0 ≤ fl 1e-3 - 1 / 1000 ∧
    fl 1e-3 * 2 ^ (-53 : ℤ) + (fl 1e-3 - 1 / 1000) ≤ 1 / 1000 * 2 ^ (-52 : ℤ) := by
  rw [fl_lit_1e_3]
  refine ⟨?_, by norm_num, by norm_num, by norm_num⟩
  have h1 : (2 : ℚ) ^ (-1022 : ℤ) ≤ 2 ^ (-10 : ℤ) :=
    zpow_le_zpow_right₀ (by norm_num) (by norm_num)
  exact h1.trans (by norm_num)

theorem mean64_of_nat (d : ℕ) (hd : d < 2 ^ 53) :
    Dbl.rnd ((d : ℚ) * fl 1e-3) = Dbl.fin (fl ((d : ℚ) * fl 1e-3)) ∧
    |fl ((d : ℚ) * fl 1e-3) - (d : ℚ) / 1000| ≤ (d : ℚ) / 1000 * 2 ^ (-52 : ℤ) := by
  obtain ⟨hc1, hc2, hc3, hc4⟩ := lit_1e_3_bounds
  rcases Nat.eq_zero_or_pos d with h0 | hpos
  · subst h0
    simp [rnd_zero, fl_zero]
  · have hd1 : (1 : ℚ) ≤ d := by exact_mod_cast hpos
    have hd0 : (0 : ℚ) ≤ d := by linarith
    have hd2 : (d : ℚ) < 2 ^ 53 := by exact_mod_cast hd
    have hc0 : (0 : ℚ) ≤ fl 1e-3 := le_trans (zpow_pos (by norm_num) _).le hc1
    have hx : (2 : ℚ) ^ (-1022 : ℤ) ≤ (d : ℚ) * fl 1e-3 :=
      hc1.trans (le_mul_of_one_le_left hc0 hd1)
    have hx0 : 0 ≤ (d : ℚ) * fl 1e-3 := mul_nonneg hd0 hc0
    have hx1 : (d : ℚ) * fl 1e-3 ≤ d := mul_le_of_le_one_right hd0 hc2
    have hp0 : (0 : ℚ) ≤ 2 ^ (-53 : ℤ) := (zpow_pos (by norm_num) _).le
    have hp1 : (2 : ℚ) ^ (-53 : ℤ) ≤ 1 := zpow_le_one_of_nonpos₀ (by norm_num) (by norm_num)
    have hxp : (d : ℚ) * fl 1e-3 * 2 ^ (-53 : ℤ) ≤ (d : ℚ) * fl 1e-3 :=
      mul_le_of_le_one_right hx0 hp1
    have hxp0 : 0 ≤ (d : ℚ) * fl 1e-3 * 2 ^ (-53 : ℤ) := mul_nonneg hx0 hp0
    have herr := fl_error _ hx
    rw [abs_le] at herr
    constructor
    · have hlb : 0 ≤ fl ((d : ℚ) * fl 1e-3) := by linarith [herr.1]
      have hub : fl ((d : ℚ) * fl 1e-3) < 2 ^ 1024 := by
        have h54 : fl ((d : ℚ) * fl 1e-3) < 2 ^ 54 := by
          have : (2 : ℚ) ^ 54 = 2 * 2 ^ 53 := by norm_num
          linarith [herr.2]
        exact h54.trans (pow_lt_pow_right₀ (by norm_num) (by norm_num))
      unfold Dbl.rnd
      rw [abs_of_nonneg hlb, if_neg (not_le.mpr hub)]
    · have hKd := mul_le_mul_of_nonneg_left hc4 hd0
      have hK2d := mul_nonneg hd0 hc3
      rw [abs_le]
      constructor <;> linarith [herr.1, herr.2]

theorem mean_ms64_intCast (z : ℤ) (x : ℚ) (n : ℕ) :
    (⟨(z : ℚ), x, n⟩ : Entry ℚ).mean_ms64 = Dbl.rnd ((z : ℚ) * fl 1e-3) := by
  unfold Entry.mean_ms64
  rw [round_fin, mul64_fin, std_round_intCast]

theorem sd_ms64_zero (x : ℚ) : (⟨x, 0, 1⟩ : Entry ℚ).sd_ms64 = Dbl.fin 0 := by
  have h0 : std_round (0 : ℚ) = 0 := by simpa using std_round_intCast (α := ℚ) 0
  have hf : fsqrt 0 = 0 := by simp [fsqrt]
  unfold Entry.sd_ms64 Entry.sd_us64 Entry.variance64
  rw [div_count64_of_ne _ _ Nat.one_ne_zero, zero_div, rnd_zero, mul64_fin, zero_mul, rnd_zero,
    sqrt64_fin _ le_rfl, hf, mul64_fin, zero_mul, rnd_zero, round_fin, h0, mul64_fin,
    Int.cast_zero, zero_mul, rnd_zero]

theorem sd_ms64_of_count_zero (e : Entry ℚ) (h : e.count = 0) :
    e.sd_ms64 = if 0 < e.sum_sq_dev then Dbl.pinf else Dbl.nan := by
  unfold Entry.sd_ms64 Entry.sd_us64 Entry.variance64 Dbl.div_count64
  rw [if_pos h]
  by_cases h0 : e.sum_sq_dev = 0
  · simp [h0, Dbl.mul64, Dbl.sqrt64, Dbl.round]
  · by_cases h1 : 0 < e.sum_sq_dev
    · simp [h0, h1, Dbl.mul64, Dbl.sqrt64, Dbl.round]
    · simp [h0, h1, Dbl.mul64, Dbl.sqrt64, Dbl.round]

/-! ## The claims -/

/-- C1: for every entry of the mapping the `Milliseconds` value reported by
`Timer::stop` is the mean converted to milliseconds (`mean * 1e-3`) rounded to
three decimal places, ties away from zero, and it differs from `mean / 1000` by
at most `0.0005`. -/
theorem stop_milliseconds_rounded [LinearOrderedField α] [FloorRing α] (sqrt : α → α)
    (t : Timer α) (env : Environment α) :
    (t.stop sqrt env).results.Milliseconds =
        t.data.map (fun p => Dbl.fin (round3 (p.2.mean * 1e-3))) ∧
    ∀ e : Entry α, e.mean_ms = Dbl.fin (round3 (e.mean * 1e-3)) ∧
      |round3 (e.mean * 1e-3) - e.mean / 1000| ≤ 5e-4 := by
  refine ⟨?_, fun e => ⟨mean_ms_eq e, ?_⟩⟩
  · rw [stop_results]
    simp only [mean_ms_eq]
  · have h : e.mean * 1e-3 * 1000 = e.mean := by norm_num [mul_assoc]
    have hr := std_round_sub_le e.mean
    rw [abs_le] at hr ⊢
    simp only [round3, h]
    norm_num
    constructor <;> linarith [hr.1, hr.2]

/-- C3, as stated, fails: a tag that is started and never stopped has the entry
`(0, 0, 0)`; for it the variance of line 47 is `0 / 0 = NaN` and the `SD`
column of the report holds `NaN`, not `0`. -/
theorem stop_zero_count_sd_nan :
    ((Timer.new "times" true true : Timer ℝ).run [Event.start "a"]).data =
      [("a", ⟨0, 0, 0⟩)] ∧
    (⟨0, 0, 0⟩ : Entry ℝ).variance = Dbl.nan ∧
    (Timer.stop Real.sqrt
      ⟨⟨[("a", ⟨0, 0, 0⟩)], "times", true⟩, true⟩ (fun _ => none)).results.SD = [Dbl.nan] ∧
    ¬ (∀ e : Entry ℝ, e.count = 0 →
        e.variance = Dbl.fin 0 ∧ e.sd_ms Real.sqrt = Dbl.fin 0) := by
  refine ⟨?_, ?_, ?_, ?_⟩
  · simp [Timer.run, Timer.new, CppTimer.run, CppTimer.step, create, Entry.zero]
  · simp [Entry.variance, Dbl.div_count]
  · rw [stop_results]
    simp [Entry.sd_ms, Entry.variance, Dbl.div_count, Dbl.mul_const, Dbl.sqrt, Dbl.round]
  · intro h
    have h0 := (h ⟨0, 0, 0⟩ rfl).1
    simp [Entry.variance, Dbl.div_count] at h0

/-- C3, amended: for every entry whose count is 0, `Timer::stop` still emits a
row for the entry (the division of line 47 is a floating-point one and does not
trap), the variance is `NaN` when `sum_sq_dev = 0` and an infinity of the sign
of `sum_sq_dev` otherwise, and the `SD` reported is `+inf` when
`sum_sq_dev > 0` and `NaN` otherwise: neither is a finite number. -/
theorem stop_zero_count_not_finite [LinearOrderedField α] [FloorRing α] (sqrt : α → α)
    (t : Timer α) (env : Environment α) (e : Entry α) (h : e.count = 0) :
    (t.stop sqrt env).results.SD.length = t.data.length ∧
    e.variance =
      (if e.sum_sq_dev = 0 then Dbl.nan else if 0 < e.sum_sq_dev then Dbl.pinf else Dbl.ninf) ∧
    e.sd_ms sqrt = (if 0 < e.sum_sq_dev then Dbl.pinf else Dbl.nan) ∧
    (∀ v : α, e.variance ≠ Dbl.fin v) ∧ (∀ v : α, e.sd_ms sqrt ≠ Dbl.fin v) := by
  have hv : e.variance =
      (if e.sum_sq_dev = 0 then Dbl.nan else if 0 < e.sum_sq_dev then Dbl.pinf else Dbl.ninf) := by
    simp [Entry.variance, Dbl.div_count, h]
  have hsd : e.sd_ms sqrt = (if 0 < e.sum_sq_dev then Dbl.pinf else Dbl.nan) := by
    unfold Entry.sd_ms
    rw [hv]
    by_cases h0 : e.sum_sq_dev = 0
    · simp [h0, Dbl.mul_const, Dbl.sqrt, Dbl.round]
    · by_cases h1 : 0 < e.sum_sq_dev
      · simp [h0, h1, Dbl.mul_const, Dbl.sqrt, Dbl.round]
      · simp [h0, h1, Dbl.mul_const, Dbl.sqrt, Dbl.round]
  refine ⟨?_, hv, hsd, ?_, ?_⟩
  · rw [stop_results]
    simp
  · intro v
    rw [hv]
    split_ifs <;> simp
  · intro v
    rw [hsd]
    split_ifs <;> simp

/-- Witness of the amended C3: the entry `(0, 0, 0)`. -/
theorem stop_zero_count_not_finite_witness :
    (⟨0, 0, 0⟩ : Entry ℝ).count = 0 ∧
    (⟨0, 0, 0⟩ : Entry ℝ).sd_ms Real.sqrt =
      (if 0 < (⟨0, 0, 0⟩ : Entry ℝ).sum_sq_dev then Dbl.pinf else Dbl.nan) :=
  ⟨rfl, (stop_zero_count_not_finite Real.sqrt
    ⟨⟨[("a", ⟨0, 0, 0⟩)], "times", true⟩, true⟩ (fun _ => none) ⟨0, 0, 0⟩ rfl).2.2.1⟩

/-- C5, as stated, fails at `d = 9`: for the entry `(9, 0, 1)` line 50 computes
in binary64 the product of 9 and the `double` `1e-3`; the exact product lies
half-way between two `double`s and is rounded to the even one,
`0.009000000000000001`, which is neither the number `9 / 1000` nor the `double`
nearest to it, one unit in the last place below. -/
theorem stop64_mean_nine :
    (Timer.stop64 ⟨⟨[("a", ⟨9, 0, 1⟩)], "times", true⟩, true⟩
      (fun _ => none)).results.Milliseconds = [Dbl.fin (5188146770730812 / 2 ^ 59)] ∧
    Dbl.rnd (9 / 1000) = Dbl.fin (5188146770730811 / 2 ^ 59) ∧
    (Timer.stop64 ⟨⟨[("a", ⟨9, 0, 1⟩)], "times", true⟩, true⟩
      (fun _ => none)).results.Milliseconds ≠ [Dbl.fin (9 / 1000)] ∧
    (Timer.stop64 ⟨⟨[("a", ⟨9, 0, 1⟩)], "times", true⟩, true⟩
      (fun _ => none)).results.Milliseconds ≠ [Dbl.rnd (9 / 1000)] := by
  have h9 : Dbl.rnd (((9 : ℤ) : ℚ) * fl 1e-3) = Dbl.fin (5188146770730812 / 2 ^ 59) := by
    rw [fl_lit_1e_3]
    exact rnd_eq_of_tie_odd _ _ 5188146770730811 (-59) (by norm_num) (by norm_num) (by norm_num)
      (by norm_num) (by norm_num) (by norm_num) (by decide) (by norm_num) (by norm_num)
  have hn : Dbl.rnd (9 / 1000) = Dbl.fin (5188146770730811 / 2 ^ 59) :=
    rnd_eq_of_bounds _ _ 5188146770730811 (-59) (by norm_num) (by norm_num) (by norm_num)
      (by norm_num) (by norm_num) (by norm_num) (by norm_num) (by norm_num) (by norm_num)
  have hm : (Timer.stop64 ⟨⟨[("a", ⟨9, 0, 1⟩)], "times", true⟩, true⟩
      (fun _ => none)).results.Milliseconds = [Dbl.fin (5188146770730812 / 2 ^ 59)] := by
    have hz := mean_ms64_intCast 9 0 1
    rw [h9] at hz
    simp only [Int.cast_ofNat] at hz
    rw [stop64_results]
    simp only [List.map_cons, List.map_nil, hz]
  refine ⟨hm, hn, ?_, ?_⟩
  · rw [hm]
    intro h
    have h1 := Dbl.fin.inj (List.cons.inj h).1
    norm_num at h1
  · rw [hm, hn]
    intro h
    have h1 := Dbl.fin.inj (List.cons.inj h).1
    norm_num at h1

/-- C5, amended: for every single observation of a whole number `d < 2 ^ 53` of
microsecond ticks (entry `mean = d`, `sum_sq_dev = 0`, `count = 1`) the row
reported by `Timer::stop` in binary64 is `(q, 0, 1)`, where `q` is the rounded
product of `d` and the `double` `1e-3`; `q` is within the relative error
`2 ^ (-52)` of `d / 1000`.  For `d = 1500` the row is exactly `(1.5, 0.0, 1)`. -/
theorem stop64_single_observation (d : ℕ) (hd : d < 2 ^ 53) (tag name : String)
    (verbose autoreturn : Bool) (env : Environment ℚ) :
    fl (d : ℚ) = d ∧
    (∃ q : ℚ,
      (Timer.stop64 ⟨⟨[(tag, ⟨(d : ℚ), 0, 1⟩)], name, verbose⟩, autoreturn⟩ env).results =
        ⟨[tag], [Dbl.fin q], [Dbl.fin 0], [1]⟩ ∧
      q = fl ((d : ℚ) * fl 1e-3) ∧
      |q - (d : ℚ) / 1000| ≤ (d : ℚ) / 1000 * 2 ^ (-52 : ℤ)) ∧
    (Timer.stop64 ⟨⟨[(tag, ⟨1500, 0, 1⟩)], name, verbose⟩, autoreturn⟩ env).results =
      ⟨[tag], [Dbl.fin 1.5], [Dbl.fin 0.0], [1]⟩ := by
  refine ⟨fl_natCast d hd, ?_, ?_⟩
  · obtain ⟨hfin, hbound⟩ := mean64_of_nat d hd
    refine ⟨fl ((d : ℚ) * fl 1e-3), ?_, rfl, hbound⟩
    have hm := mean_ms64_intCast (d : ℤ) 0 1
    simp only [Int.cast_natCast] at hm
    rw [hfin] at hm
    rw [stop64_results]
    simp only [List.map_cons, List.map_nil, hm, sd_ms64_zero]
  · have h15 : Dbl.rnd (((1500 : ℤ) : ℚ) * fl 1e-3) = Dbl.fin (3 / 2) := by
      rw [fl_lit_1e_3]
      exact rnd_eq_of_bounds _ _ 6755399441055744 (-52) (by norm_num) (by norm_num)
        (by norm_num) (by norm_num) (by norm_num) (by norm_num) (by norm_num)
        (by norm_num) (by norm_num)
    have hm := mean_ms64_intCast 1500 0 1
    rw [h15] at hm
    simp only [Int.cast_ofNat] at hm
    have e1 : (1.5 : ℚ) = 3 / 2 := by norm_num
    have e2 : (0.0 : ℚ) = 0 := by norm_num
    rw [stop64_results, e1, e2]
    simp only [List.map_cons, List.map_nil, hm, sd_ms64_zero]

/-- Witness of the amended C5: the observation of 9 ticks. -/
theorem stop64_single_observation_witness :
    9 < 2 ^ 53 ∧
    ∃ q : ℚ,
      (Timer.stop64 ⟨⟨[("a", ⟨((9 : ℕ) : ℚ), 0, 1⟩)], "times", true⟩, true⟩
        (fun _ => none)).results = ⟨["a"], [Dbl.fin q], [Dbl.fin 0], [1]⟩ ∧
      q = fl (((9 : ℕ) : ℚ) * fl 1e-3) ∧
      |q - ((9 : ℕ) : ℚ) / 1000| ≤ ((9 : ℕ) : ℚ) / 1000 * 2 ^ (-52 : ℤ) :=
  ⟨by norm_num,
    (stop64_single_observation 9 (by norm_num) "a" "times" true true (fun _ => none)).2.1⟩

/-- C6: the report returned by `Timer::stop` has one row per entry of the
mapping, in the iteration order of the mapping: the four columns have the
length of the mapping, row `i` carries the tag of the `i`-th entry and its
`Count` is the count of that entry, unchanged. -/
theorem stop_one_row_per_entry [LinearOrderedField α] [FloorRing α] (sqrt : α → α)
    (t : Timer α) (env : Environment α) :
    (t.stop sqrt env).results.Name.length = t.data.length ∧
    (t.stop sqrt env).results.Milliseconds.length = t.data.length ∧
    (t.stop sqrt env).results.SD.length = t.data.length ∧
    (t.stop sqrt env).results.Count.length = t.data.length ∧
    (∀ i : ℕ, (t.stop sqrt env).results.Name[i]? = t.data[i]?.map (fun p => p.1)) ∧
    (∀ i : ℕ, (t.stop sqrt env).results.Count[i]? = t.data[i]?.map (fun p => p.2.count)) ∧
    (∀ i : ℕ, (t.stop sqrt env).results.Milliseconds[i]? =
      t.data[i]?.map (fun p => p.2.mean_ms)) ∧
    (∀ i : ℕ, (t.stop sqrt env).results.SD[i]? = t.data[i]?.map (fun p => p.2.sd_ms sqrt)) := by
  rw [stop_results]
  simp

/-- C4: for every sequence of timing events received by a new timer and every
tag with a non-empty list `d1..dN` of recorded elapsed times, the entry of the
tag read by `Timer::stop` is the fold of the online update over `d1..dN` from
the zero entry; its count is `N`, its mean is `sum(di) / N` and the variance of
line 47, `sum_sq_dev / count`, is the population variance of the `di`.  The
entry is a function of the elapsed times of the tag alone, so events of other
tags do not affect it. -/
theorem stop_mean_variance_of_run [LinearOrderedField α] (name : String)
    (verbose autoreturn : Bool) (evs : List (Event α)) (tag : String)
    (h : deltas tag evs ≠ []) :
    ∃ e : Entry α,
      lookup tag ((Timer.new name verbose autoreturn : Timer α).run evs).toCppTimer.aggregate.data
        = some e ∧
      e = (deltas tag evs).foldl Entry.update Entry.zero ∧
      e.count = (deltas tag evs).length ∧
      e.mean = (deltas tag evs).sum / ((deltas tag evs).length : α) ∧
      e.variance = Dbl.fin (e.sum_sq_dev / (e.count : α)) ∧
      e.variance = Dbl.fin (popVariance (deltas tag evs)) ∧
      ∀ evs2 : List (Event α), deltas tag evs2 = deltas tag evs →
        lookup tag
          ((Timer.new name verbose autoreturn : Timer α).run evs2).toCppTimer.aggregate.data
          = some e := by
  obtain ⟨hc, hm, hs⟩ := update_foldl_invariant (deltas tag evs)
  have hlen : (deltas tag evs).length ≠ 0 := fun h0 => h (List.length_eq_zero.mp h0)
  refine ⟨(deltas tag evs).foldl Entry.update Entry.zero, ?_, rfl, hc, hm, ?_, ?_, ?_⟩
  · exact lookup_run_none tag evs _ rfl h
  · simp [Entry.variance, Dbl.div_count, hc, hlen]
  · simp only [Entry.variance, Dbl.div_count, hc, hlen, if_false, hs, popVariance_eq _ h]
  · intro evs2 h2
    rw [← h2]
    exact lookup_run_none tag evs2 _ rfl (h2 ▸ h)

/-- Witness of C4: two observations of tag `a`, of 1 and 3 ticks, interleaved
with one of tag `b`: count 2, mean 2, variance 1. -/
theorem stop_mean_variance_of_run_witness :
    deltas "a" [Event.stop "a" (1 : ℚ), Event.stop "b" 10, Event.stop "a" 3] ≠ [] ∧
    ∃ e : Entry ℚ,
      lookup "a" ((Timer.new "times" true true : Timer ℚ).run
        [Event.stop "a" (1 : ℚ), Event.stop "b" 10, Event.stop "a" 3]).toCppTimer.aggregate.data
        = some e ∧
      e.count = 2 ∧ e.mean = 2 ∧ e.variance = Dbl.fin 1 := by
  refine ⟨by simp [deltas], ?_⟩
  obtain ⟨e, h1, _, h3, h4, _, h6, _⟩ := stop_mean_variance_of_run "times" true true
    [Event.stop "a" (1 : ℚ), Event.stop "b" 10, Event.stop "a" 3] "a" (by simp [deltas])
  have hd : deltas "a" [Event.stop "a" (1 : ℚ), Event.stop "b" 10, Event.stop "a" 3] = [1, 3] := by
    simp [deltas]
  rw [hd] at h3 h4 h6
  refine ⟨e, h1, h3, ?_, ?_⟩
  · rw [h4]
    norm_num
  · rw [h6]
    norm_num [popVariance]

/-- C7: the `Name` column of the report returned by `Timer::stop` lists the
distinct tags in the order in which they were first seen; the events `b`, `a`,
`b` give the order `[b, a]`. -/
theorem stop_names_first_seen [LinearOrderedField α] [FloorRing α] (sqrt : α → α)
    (name : String) (verbose autoreturn : Bool) (evs : List (Event α))
    (env : Environment α) (x y z : α) :
    (((Timer.new name verbose autoreturn : Timer α).run evs).stop sqrt env).results.Name =
      firstSeen (evs.map Event.tag) ∧
    (((Timer.new name verbose autoreturn : Timer α).run
        [Event.stop "b" x, Event.stop "a" y, Event.stop "b" z]).stop sqrt env).results.Name =
      ["b", "a"] ∧
    (((Timer.new name verbose autoreturn : Timer α).run
        [Event.start "b", Event.start "a", Event.start "b"]).stop sqrt env).results.Name =
      ["b", "a"] := by
  have key : ∀ l : List (Event α),
      (((Timer.new name verbose autoreturn : Timer α).run l).stop sqrt env).results.Name =
        firstSeen (l.map Event.tag) := by
    intro l
    rw [stop_results]
    have := keys_run l (Timer.new name verbose autoreturn : Timer α).toCppTimer
    simpa [Timer.run, Timer.new] using this
  refine ⟨key evs, ?_, ?_⟩
  · rw [key]
    simp [firstSeen, Event.tag]
  · rw [key]
    simp [firstSeen, Event.tag]

/-- C8: two calls of `Timer::stop` in a row, with no timing activity in between,
return identical reports.  This holds with the `aggregate` of the spec, and
for every `aggregate` whose second call in a row leaves the mapping as the
first call left it. -/
theorem stop_twice_same_report [LinearOrderedField α] [FloorRing α] (sqrt : α → α)
    (t : Timer α) (env : Environment α) :
    ((t.stop sqrt env).timer.stop sqrt (t.stop sqrt env).env).results =
      (t.stop sqrt env).results ∧
    ∀ agg : CppTimer α → CppTimer α, (∀ c, (agg (agg c)).data = (agg c).data) →
      ((t.stop_with agg sqrt env).timer.stop_with agg sqrt (t.stop_with agg sqrt env).env).results
        = (t.stop_with agg sqrt env).results := by
  constructor
  · rw [stop_results, stop_results]
    rfl
  · intro agg hagg
    rw [stop_with_results, stop_with_results]
    have h : (t.stop_with agg sqrt env).timer.toCppTimer = agg t.toCppTimer := rfl
    rw [h, hagg]

/-- C9: `Timer::stop` does not mutate the accumulator: after the call the
mapping holds the same tags, in the same order, with the same
`(mean, sum_sq_dev, count)` values as before.  Whatever `aggregate` does, the
state that `stop` leaves is the one `aggregate` left: lines 33 to 68 change
neither the base object nor `autoreturn`. -/
theorem stop_keeps_mapping [LinearOrderedField α] [FloorRing α] (sqrt : α → α)
    (t : Timer α) (env : Environment α) :
    (t.stop sqrt env).timer.data = t.data ∧
    (∀ tag : String, lookup tag (t.stop sqrt env).timer.data = lookup tag t.data) ∧
    (t.stop sqrt env).timer = t ∧
    ∀ agg : CppTimer α → CppTimer α,
      (t.stop_with agg sqrt env).timer.toCppTimer = agg t.toCppTimer ∧
      (t.stop_with agg sqrt env).timer.autoreturn = t.autoreturn := by
  refine ⟨rfl, fun _ => rfl, rfl, fun _ => ⟨rfl, rfl⟩⟩

/-- C10: the flag `autoreturn` controls publishing only: `Timer::stop` returns
the same report for both values of the flag; with `autoreturn = false` it
leaves the global environment unchanged and the destructor does not call
`stop`; with `autoreturn = true` it binds the returned report to the name of
the timer and changes no other binding, and the destructor calls `stop`. -/
theorem stop_autoreturn_publishes_only [LinearOrderedField α] [FloorRing α] (sqrt : α → α)
    (t : Timer α) (env : Environment α) :
    (Timer.stop sqrt { t with autoreturn := true } env).results =
      (Timer.stop sqrt { t with autoreturn := false } env).results ∧
    (Timer.stop sqrt { t with autoreturn := false } env).env = env ∧
    Timer.destructor sqrt { t with autoreturn := false } env = none ∧
    (∀ k : String, (Timer.stop sqrt { t with autoreturn := true } env).env k =
      if k = t.name then some (Timer.stop sqrt { t with autoreturn := true } env).results
      else env k) ∧
    Timer.destructor sqrt { t with autoreturn := true } env =
      some (Timer.stop sqrt { t with autoreturn := true } env) := by
  refine ⟨rfl, rfl, rfl, fun _ => rfl, rfl⟩

end Rcpp
